import Mathlib

/-!
Verification development for the CA bootstrap module
(openfl/component/ca/ca.py).

The module is orchestration glue over an external CA toolchain: binary
discovery, bootstrap-token encoding/decoding, a JSON config patch, and
process management.  We embed the pure logic of each function and the
externally observable effect traces of the stateful ones, and prove the
specified properties.

Bytes are modelled as `Nat` (with explicit `< 256` bounds where they
matter), Python `str` values as `List Char`, filesystem paths as lists of
path segments (`List String`).
-/

namespace CA

/-! ### Base64 (model of Python `base64.b64encode` / `base64.b64decode`)

Python's stdlib implements standard RFC 4648 base64.  `b64EncodeBytes`
maps a byte list to the encoded character list (groups of 3 bytes to 4
alphabet characters, with `=` padding); `b64DecodeChars` decodes a
correctly padded encoding (the only inputs the module ever feeds it). -/

def b64Alphabet : List Char :=
  "ABCDEFGHIJKLMNOPQRSTUVWXYZabcdefghijklmnopqrstuvwxyz0123456789+/".toList

/-- Alphabet character for a six-bit value. -/
def encChar (n : Nat) : Char := b64Alphabet.getD n 'A'

/-- Six-bit value of an alphabet character. -/
def decChar (c : Char) : Nat := b64Alphabet.indexOf c

def b64EncodeBytes : List Nat → List Char
  | [] => []
  | [a] => [encChar (a / 4), encChar (a % 4 * 16), '=', '=']
  | [a, b] => [encChar (a / 4), encChar (a % 4 * 16 + b / 16), encChar (b % 16 * 4), '=']
  | a :: b :: c :: rest =>
      encChar (a / 4) :: encChar (a % 4 * 16 + b / 16) ::
        encChar (b % 16 * 4 + c / 64) :: encChar (c % 64) :: b64EncodeBytes rest

/-- Reassemble bytes from a list of six-bit values (padding stripped). -/
def sextetsToBytes : List Nat → List Nat
  | s1 :: s2 :: s3 :: s4 :: rest =>
      (s1 * 4 + s2 / 16) :: (s2 % 16 * 16 + s3 / 4) ::
        (s3 % 4 * 64 + s4) :: sextetsToBytes rest
  | [s1, s2] => [s1 * 4 + s2 / 16]
  | [s1, s2, s3] => [s1 * 4 + s2 / 16, s2 % 16 * 16 + s3 / 4]
  | _ => []

def b64DecodeChars (cs : List Char) : List Nat :=
  sextetsToBytes ((cs.filter (fun c => c != '=')).map decChar)

/-! ### Token wire format -/

/-- TOKEN_DELIMITER in the source is the single character `.`. -/
def TOKEN_DELIMITER : Char := '.'

/-- Model of Python `str.split('.')`. -/
def splitOnDot : List Char → List (List Char)
  | [] => [[]]
  | c :: rest =>
    if c = '.' then [] :: splitOnDot rest
    else
      match splitOnDot rest with
      | [] => [[c]]
      | s :: ss => (c :: s) :: ss

/-! ### Base64 lemmas -/

theorem b64Alphabet_length : b64Alphabet.length = 64 := by decide

theorem encChar_ne_pad (n : Nat) : (encChar n != '=') = true := by
  rcases Nat.lt_or_ge n 64 with h | h
  · revert h; revert n; decide
  · have hlen : b64Alphabet.length ≤ n := by rw [b64Alphabet_length]; exact h
    simp [encChar, List.getD, List.getElem?_eq_none hlen]

theorem encChar_ne_dot (n : Nat) : ¬ encChar n = '.' := by
  rcases Nat.lt_or_ge n 64 with h | h
  · revert h; revert n; decide
  · have hlen : b64Alphabet.length ≤ n := by rw [b64Alphabet_length]; exact h
    simp [encChar, List.getD, List.getElem?_eq_none hlen]

theorem decChar_encChar (n : Nat) (h : n < 64) : decChar (encChar n) = n := by
  revert h; revert n; decide

theorem b64_roundtrip (bs : List Nat) (h : ∀ x ∈ bs, x < 256) :
    b64DecodeChars (b64EncodeBytes bs) = bs := by
  induction bs using b64EncodeBytes.induct with
  | case1 => rfl
  | case2 a =>
    have ha : a < 256 := h a (by simp)
    have d1 := decChar_encChar (a / 4) (by omega)
    have d2 := decChar_encChar (a % 4 * 16) (by omega)
    simp [b64DecodeChars, b64EncodeBytes, List.filter, encChar_ne_pad, d1, d2,
      sextetsToBytes]
    omega
  | case3 a b =>
    have ha : a < 256 := h a (by simp)
    have hb : b < 256 := h b (by simp)
    have d1 := decChar_encChar (a / 4) (by omega)
    have d2 := decChar_encChar (a % 4 * 16 + b / 16) (by omega)
    have d3 := decChar_encChar (b % 16 * 4) (by omega)
    simp [b64DecodeChars, b64EncodeBytes, List.filter, encChar_ne_pad, d1, d2, d3,
      sextetsToBytes]
    omega
  | case4 a b c rest ih =>
    have ha : a < 256 := h a (by simp)
    have hb : b < 256 := h b (by simp)
    have hc : c < 256 := h c (by simp)
    have hrest : ∀ x ∈ rest, x < 256 := fun x hx => h x (by simp [hx])
    have ihr := ih hrest
    have d1 := decChar_encChar (a / 4) (by omega)
    have d2 := decChar_encChar (a % 4 * 16 + b / 16) (by omega)
    have d3 := decChar_encChar (b % 16 * 4 + c / 64) (by omega)
    have d4 := decChar_encChar (c % 64) (by omega)
    simp only [b64DecodeChars, b64EncodeBytes, List.filter, encChar_ne_pad,
      List.map_cons, d1, d2, d3, d4, sextetsToBytes] at ihr ⊢
    rw [ihr]
    have e1 : a / 4 * 4 + (a % 4 * 16 + b / 16) / 16 = a := by omega
    have e2 : (a % 4 * 16 + b / 16) % 16 * 16 + (b % 16 * 4 + c / 64) / 4 = b := by omega
    have e3 : (b % 16 * 4 + c / 64) % 4 * 64 + c % 64 = c := by omega
    rw [e1, e2, e3]

theorem dot_notMem_b64 (bs : List Nat) : '.' ∉ b64EncodeBytes bs := by
  induction bs using b64EncodeBytes.induct with
  | case1 => simp [b64EncodeBytes]
  | case2 a =>
    simp only [b64EncodeBytes, List.mem_cons, List.not_mem_nil, or_false]
    intro hmem
    rcases hmem with h | h | h | h <;> first
      | exact encChar_ne_dot _ h.symm
      | exact absurd h (by decide)
  | case3 a b =>
    simp only [b64EncodeBytes, List.mem_cons, List.not_mem_nil, or_false]
    intro hmem
    rcases hmem with h | h | h | h <;> first
      | exact encChar_ne_dot _ h.symm
      | exact absurd h (by decide)
  | case4 a b c rest ih =>
    simp only [b64EncodeBytes, List.mem_cons]
    intro hmem
    rcases hmem with h | h | h | h | h
    · exact encChar_ne_dot _ h.symm
    · exact encChar_ne_dot _ h.symm
    · exact encChar_ne_dot _ h.symm
    · exact encChar_ne_dot _ h.symm
    · exact ih h

theorem splitOnDot_no_dot (ys : List Char) (h : '.' ∉ ys) : splitOnDot ys = [ys] := by
  induction ys with
  | nil => rfl
  | cons c rest ih =>
    simp only [List.mem_cons, not_or] at h
    rw [splitOnDot, if_neg (fun hc => h.1 hc.symm), ih h.2]

theorem splitOnDot_append (xs ys : List Char) (h : '.' ∉ xs) :
    splitOnDot (xs ++ '.' :: ys) = xs :: splitOnDot ys := by
  induction xs with
  | nil => simp [splitOnDot]
  | cons c rest ih =>
    simp only [List.mem_cons, not_or] at h
    rw [List.cons_append, splitOnDot, if_neg (fun hc => h.1 hc.symm), ih h.2]

/-- C1: Token wire-format round-trip.  For all byte strings T (token) and R
(root certificate), base64-encoding each and joining with the `.` delimiter
(as `get_token` does), then splitting on the delimiter and base64-decoding
each segment (as `certify` does), recovers exactly the pair (T, R). -/
theorem token_wire_roundtrip (T R : List Nat)
    (hT : ∀ x ∈ T, x < 256) (hR : ∀ x ∈ R, x < 256) :
    splitOnDot (b64EncodeBytes T ++ TOKEN_DELIMITER :: b64EncodeBytes R)
      = [b64EncodeBytes T, b64EncodeBytes R] ∧
    (splitOnDot (b64EncodeBytes T ++ TOKEN_DELIMITER :: b64EncodeBytes R)).map
        b64DecodeChars = [T, R] := by
  have hsplit : splitOnDot (b64EncodeBytes T ++ TOKEN_DELIMITER :: b64EncodeBytes R)
      = [b64EncodeBytes T, b64EncodeBytes R] := by
    rw [show TOKEN_DELIMITER = '.' from rfl,
      splitOnDot_append _ _ (dot_notMem_b64 T),
      splitOnDot_no_dot _ (dot_notMem_b64 R)]
  refine ⟨hsplit, ?_⟩
  rw [hsplit]
  simp [b64_roundtrip T hT, b64_roundtrip R hR]

/-- Witness for C1 at a concrete token/root-cert byte pair. -/
theorem token_wire_roundtrip_witness :
    splitOnDot (b64EncodeBytes [0, 255, 7] ++ TOKEN_DELIMITER :: b64EncodeBytes [10, 20])
      = [b64EncodeBytes [0, 255, 7], b64EncodeBytes [10, 20]] ∧
    (splitOnDot (b64EncodeBytes [0, 255, 7] ++ TOKEN_DELIMITER :: b64EncodeBytes [10, 20])).map
        b64DecodeChars = [[0, 255, 7], [10, 20]] :=
  token_wire_roundtrip [0, 255, 7] [10, 20] (by decide) (by decide)

/-! ### JSON documents and the `_configure` patch

Python `json.load` yields dicts (insertion-ordered), lists, strings,
numbers, booleans and null.  We model documents with `Json`, objects as
ordered association lists.  `setKey` models Python dict assignment
(in-place update of an existing key, append for a new key); `setdefaultF`
models `dict.setdefault` (return the existing value, or insert the default
at the end and return it). -/

inductive Json where
  | str (s : String)
  | num (n : Int)
  | bool (b : Bool)
  | null
  | arr (xs : List Json)
  | obj (fields : List (String × Json))

/-- Python errors the module can raise. -/
inductive PyErr where
  | indexError
  | valueError
  | attributeError
  | binasciiError
  | unicodeDecodeError
  deriving DecidableEq, Repr

def getKey : List (String × Json) → String → Option Json
  | [], _ => none
  | (k, v) :: rest, key => if k = key then some v else getKey rest key

def setKey : List (String × Json) → String → Json → List (String × Json)
  | [], key, val => [(key, val)]
  | (k, v) :: rest, key, val =>
      if k = key then (key, val) :: rest else (k, v) :: setKey rest key val

def setdefaultF (l : List (String × Json)) (key : String) (d : Json) :
    List (String × Json) × Json :=
  match getKey l key with
  | some v => (l, v)
  | none => (l ++ [(key, d)], d)

/-- Wrapper naming the four in-order duration-field assignments performed by
`_configure` on the `authority.claims` object. -/
def patch4 (cfields : List (String × Json)) : List (String × Json) :=
  setKey (setKey (setKey (setKey cfields "maxTLSCertDuration" (.str "8760h"))
    "defaultTLSCertDuration" (.str "8760h")) "maxUserSSHCertDuration" (.str "24h"))
    "defaultUserSSHCertDuration" (.str "24h")

/-- Model of `_configure`: patch the four certificate-lifetime fields under
`authority.claims` of the parsed `ca.json` document.  `setdefault` on a
non-dict value (and a non-object top-level document followed by
`.setdefault`) raises `AttributeError`. -/
def _configure (j : Json) : Except PyErr Json :=
  match j with
  | .obj fields =>
    match setdefaultF fields "authority" (.obj []) with
    | (fields1, .obj afields) =>
      match setdefaultF afields "claims" (.obj []) with
      | (afields1, .obj cfields) =>
        .ok (.obj (setKey fields1 "authority"
          (.obj (setKey afields1 "claims" (.obj (patch4 cfields))))))
      | (_, _) => .error .attributeError
    | (_, _) => .error .attributeError
  | _ => .error .attributeError

/-! ### Association-list lemmas -/

theorem getKey_setKey_self (l : List (String × Json)) (k : String) (v : Json) :
    getKey (setKey l k v) k = some v := by
  induction l with
  | nil => simp [setKey, getKey]
  | cons p rest ih =>
    rcases p with ⟨pk, pv⟩
    by_cases h : pk = k
    · simp [setKey, h, getKey]
    · simp [setKey, h, getKey, ih]

theorem getKey_setKey_ne (l : List (String × Json)) (k k' : String) (v : Json)
    (h : k' ≠ k) : getKey (setKey l k v) k' = getKey l k' := by
  have hkk : k ≠ k' := Ne.symm h
  induction l with
  | nil => simp [setKey, getKey, hkk]
  | cons p rest ih =>
    rcases p with ⟨pk, pv⟩
    by_cases hp : pk = k
    · subst hp
      simp [setKey, getKey, hkk]
    · simp [setKey, hp, getKey, ih]

theorem setKey_of_getKey (l : List (String × Json)) (k : String) (v : Json)
    (h : getKey l k = some v) : setKey l k v = l := by
  induction l with
  | nil => simp [getKey] at h
  | cons p rest ih =>
    rcases p with ⟨pk, pv⟩
    rw [getKey] at h
    rw [setKey]
    by_cases hp : pk = k
    · rw [if_pos hp] at h
      rw [if_pos hp]
      injection h with h2
      rw [← h2, hp]
    · rw [if_neg hp] at h
      rw [if_neg hp, ih h]

theorem getKey_append_ne (l : List (String × Json)) (k k' : String) (d : Json)
    (h : k' ≠ k) : getKey (l ++ [(k, d)]) k' = getKey l k' := by
  have hkk : k ≠ k' := Ne.symm h
  induction l with
  | nil => simp [getKey, hkk]
  | cons p rest ih =>
    rcases p with ⟨pk, pv⟩
    by_cases hp : pk = k'
    · simp [getKey, hp]
    · simp [getKey, hp, ih]

/-- Evaluation of `_configure` when both `authority` and `authority.claims`
are present objects. -/
theorem configure_eval (fields afields cfields : List (String × Json))
    (hA : getKey fields "authority" = some (.obj afields))
    (hC : getKey afields "claims" = some (.obj cfields)) :
    _configure (.obj fields) = .ok (.obj (setKey fields "authority"
      (.obj (setKey afields "claims" (.obj (patch4 cfields)))))) := by
  simp only [_configure, setdefaultF, hA, hC]

/-- Keys of the claims object after the patch: the four duration fields have
their patched values. -/
theorem getKey_patch4_maxTLS (l : List (String × Json)) :
    getKey (patch4 l) "maxTLSCertDuration" = some (.str "8760h") := by
  rw [patch4, getKey_setKey_ne _ _ _ _ (by decide), getKey_setKey_ne _ _ _ _ (by decide),
    getKey_setKey_ne _ _ _ _ (by decide), getKey_setKey_self]

theorem getKey_patch4_defTLS (l : List (String × Json)) :
    getKey (patch4 l) "defaultTLSCertDuration" = some (.str "8760h") := by
  rw [patch4, getKey_setKey_ne _ _ _ _ (by decide), getKey_setKey_ne _ _ _ _ (by decide),
    getKey_setKey_self]

theorem getKey_patch4_maxSSH (l : List (String × Json)) :
    getKey (patch4 l) "maxUserSSHCertDuration" = some (.str "24h") := by
  rw [patch4, getKey_setKey_ne _ _ _ _ (by decide), getKey_setKey_self]

theorem getKey_patch4_defSSH (l : List (String × Json)) :
    getKey (patch4 l) "defaultUserSSHCertDuration" = some (.str "24h") :=
  getKey_setKey_self _ _ _

/-- Applying the four duration assignments a second time changes nothing. -/
theorem patch4_patch4 (l : List (String × Json)) : patch4 (patch4 l) = patch4 l := by
  conv_lhs => rw [patch4]
  rw [setKey_of_getKey _ _ _ (getKey_patch4_maxTLS l)]
  rw [setKey_of_getKey _ _ _ (getKey_patch4_defTLS l)]
  rw [setKey_of_getKey _ _ _ (getKey_patch4_maxSSH l)]
  rw [setKey_of_getKey _ _ _ (getKey_patch4_defSSH l)]

/-- C4: `_configure` (patchCertLifetimes) is idempotent: whenever one
application of the patch succeeds with document `j'`, applying the patch to
`j'` succeeds and returns `j'` itself — so the four duration fields agree
and, the written file being a deterministic serialization of the returned
document, the second application leaves the file content byte-for-byte
identical to the first application's output. -/
theorem configure_idempotent (j j' : Json) (h : _configure j = .ok j') :
    _configure j' = .ok j' := by
  match j with
  | .str _ => simp [_configure] at h
  | .num _ => simp [_configure] at h
  | .bool _ => simp [_configure] at h
  | .null => simp [_configure] at h
  | .arr _ => simp [_configure] at h
  | .obj fields =>
    simp only [_configure] at h
    split at h
    case h_2 => exact absurd h (by simp)
    case h_1 fields1 afields hA =>
      split at h
      case h_2 => exact absurd h (by simp)
      case h_1 afields1 cfields hC =>
        simp only [Except.ok.injEq] at h
        subst h
        rw [configure_eval _ (setKey afields1 "claims" (.obj (patch4 cfields)))
          (patch4 cfields) (getKey_setKey_self _ _ _) (getKey_setKey_self _ _ _)]
        rw [patch4_patch4]
        rw [setKey_of_getKey _ _ _ (getKey_setKey_self afields1 "claims" _)]
        rw [setKey_of_getKey _ _ _ (getKey_setKey_self fields1 "authority" _)]

/-- Witness for C4 at a concrete configuration document. -/
theorem configure_idempotent_witness :
    _configure (.obj [("root", .str "path"),
        ("authority", .obj [("provisioners", .arr [])])])
      = .ok (.obj [("root", .str "path"),
        ("authority", .obj [("provisioners", .arr []),
          ("claims", .obj [("maxTLSCertDuration", .str "8760h"),
            ("defaultTLSCertDuration", .str "8760h"),
            ("maxUserSSHCertDuration", .str "24h"),
            ("defaultUserSSHCertDuration", .str "24h")])])])
    ∧ _configure (.obj [("root", .str "path"),
        ("authority", .obj [("provisioners", .arr []),
          ("claims", .obj [("maxTLSCertDuration", .str "8760h"),
            ("defaultTLSCertDuration", .str "8760h"),
            ("maxUserSSHCertDuration", .str "24h"),
            ("defaultUserSSHCertDuration", .str "24h")])])])
      = .ok (.obj [("root", .str "path"),
        ("authority", .obj [("provisioners", .arr []),
          ("claims", .obj [("maxTLSCertDuration", .str "8760h"),
            ("defaultTLSCertDuration", .str "8760h"),
            ("maxUserSSHCertDuration", .str "24h"),
            ("defaultUserSSHCertDuration", .str "24h")])])]) :=
  ⟨by rfl, configure_idempotent (.obj [("root", .str "path"),
    ("authority", .obj [("provisioners", .arr [])])]) _ (by rfl)⟩

theorem setdefaultF_cases (l l1 : List (String × Json)) (k : String) (v d : Json)
    (h : setdefaultF l k d = (l1, v)) :
    (getKey l k = some v ∧ l1 = l) ∨
      (getKey l k = none ∧ v = d ∧ l1 = l ++ [(k, d)]) := by
  rw [setdefaultF] at h
  rcases hg : getKey l k with _ | w
  · rw [hg] at h
    change (l ++ [(k, d)], d) = (l1, v) at h
    injection h with h1 h2
    exact Or.inr ⟨rfl, h2.symm, h1.symm⟩
  · rw [hg] at h
    change (l, w) = (l1, v) at h
    injection h with h1 h2
    exact Or.inl ⟨by rw [h2], h1.symm⟩

theorem getKey_patch4_ne (l : List (String × Json)) (k : String)
    (h1 : k ≠ "maxTLSCertDuration") (h2 : k ≠ "defaultTLSCertDuration")
    (h3 : k ≠ "maxUserSSHCertDuration") (h4 : k ≠ "defaultUserSSHCertDuration") :
    getKey (patch4 l) k = getKey l k := by
  rw [patch4, getKey_setKey_ne _ _ _ _ h4, getKey_setKey_ne _ _ _ _ h3,
    getKey_setKey_ne _ _ _ _ h2, getKey_setKey_ne _ _ _ _ h1]

/-- C5: Frame property of `_configure` (patchCertLifetimes).  A successful
application produces an object document in which: every top-level field
other than `authority` is unchanged; inside `authority` every field other
than `claims` is unchanged (`authority` itself taken as the empty object if
it was absent); inside `authority.claims` every field other than the four
duration fields is unchanged (`claims` taken as empty if absent); and the
four duration fields hold exactly `"8760h"`, `"8760h"`, `"24h"`, `"24h"`. -/
theorem configure_frame (fs : List (String × Json)) (j' : Json)
    (h : _configure (.obj fs) = .ok j') :
    ∃ fs', j' = .obj fs' ∧
      (∀ k, k ≠ "authority" → getKey fs' k = getKey fs k) ∧
      ∃ afs afs', getKey fs' "authority" = some (.obj afs') ∧
        (getKey fs "authority" = some (.obj afs) ∨
          (getKey fs "authority" = none ∧ afs = [])) ∧
        (∀ k, k ≠ "claims" → getKey afs' k = getKey afs k) ∧
        ∃ cfs cfs', getKey afs' "claims" = some (.obj cfs') ∧
          (getKey afs "claims" = some (.obj cfs) ∨
            (getKey afs "claims" = none ∧ cfs = [])) ∧
          (∀ k, k ≠ "maxTLSCertDuration" → k ≠ "defaultTLSCertDuration" →
            k ≠ "maxUserSSHCertDuration" → k ≠ "defaultUserSSHCertDuration" →
            getKey cfs' k = getKey cfs k) ∧
          getKey cfs' "maxTLSCertDuration" = some (.str "8760h") ∧
          getKey cfs' "defaultTLSCertDuration" = some (.str "8760h") ∧
          getKey cfs' "maxUserSSHCertDuration" = some (.str "24h") ∧
          getKey cfs' "defaultUserSSHCertDuration" = some (.str "24h") := by
  simp only [_configure] at h
  split at h
  case h_2 => exact absurd h (by simp)
  case h_1 fields1 afields hA =>
    split at h
    case h_2 => exact absurd h (by simp)
    case h_1 afields1 cfields hC =>
      simp only [Except.ok.injEq] at h
      subst h
      refine ⟨_, rfl, ?_, afields,
        setKey afields1 "claims" (.obj (patch4 cfields)),
        getKey_setKey_self _ _ _, ?_, ?_, cfields, patch4 cfields,
        getKey_setKey_self _ _ _, ?_, ?_,
        getKey_patch4_maxTLS _, getKey_patch4_defTLS _,
        getKey_patch4_maxSSH _, getKey_patch4_defSSH _⟩
      · intro k hk
        rw [getKey_setKey_ne _ _ _ _ hk]
        rcases setdefaultF_cases _ _ _ _ _ hA with ⟨_, h1⟩ | ⟨_, _, h1⟩
        · rw [h1]
        · rw [h1, getKey_append_ne _ _ _ _ hk]
      · rcases setdefaultF_cases _ _ _ _ _ hA with ⟨h1, _⟩ | ⟨h1, h2, _⟩
        · exact Or.inl h1
        · right
          exact ⟨h1, by injection h2⟩
      · intro k hk
        rw [getKey_setKey_ne _ _ _ _ hk]
        rcases setdefaultF_cases _ _ _ _ _ hC with ⟨_, h1⟩ | ⟨_, _, h1⟩
        · rw [h1]
        · rw [h1, getKey_append_ne _ _ _ _ hk]
      · rcases setdefaultF_cases _ _ _ _ _ hC with ⟨h1, _⟩ | ⟨h1, h2, _⟩
        · exact Or.inl h1
        · right
          exact ⟨h1, by injection h2⟩
      · exact fun k h1 h2 h3 h4 => getKey_patch4_ne _ _ h1 h2 h3 h4

/-- Witness for C5 at a concrete configuration document with neither
`authority` nor `claims` present. -/
theorem configure_frame_witness :
    ∃ fs', (Json.obj [("root", .str "path"), ("x", .num 5),
        ("authority", .obj [("claims", .obj [("maxTLSCertDuration", .str "8760h"),
          ("defaultTLSCertDuration", .str "8760h"),
          ("maxUserSSHCertDuration", .str "24h"),
          ("defaultUserSSHCertDuration", .str "24h")])])]) = .obj fs' ∧
      (∀ k, k ≠ "authority" →
        getKey fs' k = getKey [("root", .str "path"), ("x", .num 5)] k) ∧
      ∃ afs afs', getKey fs' "authority" = some (.obj afs') ∧
        (getKey [("root", .str "path"), ("x", .num 5)] "authority"
            = some (.obj afs) ∨
          (getKey [("root", .str "path"), ("x", .num 5)] "authority" = none ∧
            afs = [])) ∧
        (∀ k, k ≠ "claims" → getKey afs' k = getKey afs k) ∧
        ∃ cfs cfs', getKey afs' "claims" = some (.obj cfs') ∧
          (getKey afs "claims" = some (.obj cfs) ∨
            (getKey afs "claims" = none ∧ cfs = [])) ∧
          (∀ k, k ≠ "maxTLSCertDuration" → k ≠ "defaultTLSCertDuration" →
            k ≠ "maxUserSSHCertDuration" → k ≠ "defaultUserSSHCertDuration" →
            getKey cfs' k = getKey cfs k) ∧
          getKey cfs' "maxTLSCertDuration" = some (.str "8760h") ∧
          getKey cfs' "defaultTLSCertDuration" = some (.str "8760h") ∧
          getKey cfs' "maxUserSSHCertDuration" = some (.str "24h") ∧
          getKey cfs' "defaultUserSSHCertDuration" = some (.str "24h") :=
  configure_frame [("root", .str "path"), ("x", .num 5)] _ (by rfl)

/-! ### Version-directory discovery (`get_step_bin_path` / `get_step_ca_bin_path`)

The source resolves the toolchain binary as
`<ca_path>/step/<sorted(os.listdir(ca_path/step))[-1]>/bin/step`.
Python sorts strings lexicographically by code point; `lexLe` is that
ordering on `List Char`, `pySorted` the corresponding sort, and indexing
`[-1]` on an empty listing raises `IndexError`.  The filesystem is
abstracted by `Fs`: whether `<ca_path>/step` exists and what `os.listdir`
returns for it. -/

/-- Python string ≤ : lexicographic by code point, shorter prefix first. -/
def lexLe : List Char → List Char → Bool
  | [], _ => true
  | _ :: _, [] => false
  | a :: as, b :: bs =>
    if a.toNat < b.toNat then true
    else if b.toNat < a.toNat then false
    else lexLe as bs

def pyLe (a b : String) : Bool := lexLe a.toList b.toList

/-- Model of Python `sorted` on a list of strings. -/
def pySorted (l : List String) : List String := l.mergeSort pyLe

/-- State of the workspace binary directory `<ca_path>/step`. -/
structure Fs where
  stepDirExists : Bool
  stepEntries : List String

def get_step_bin_path (caPath : List String) (fs : Fs) :
    Except PyErr (Option (List String)) :=
  if fs.stepDirExists then
    match (pySorted fs.stepEntries).getLast? with
    | none => .error .indexError
    | some v => .ok (some (caPath ++ ["step", v, "bin", "step"]))
  else .ok none

def get_step_ca_bin_path (caPath : List String) (fs : Fs) :
    Except PyErr (Option (List String)) :=
  if fs.stepDirExists then
    match (pySorted fs.stepEntries).getLast? with
    | none => .error .indexError
    | some v => .ok (some (caPath ++ ["step", v, "bin", "step-ca"]))
  else .ok none

/-! ### Order lemmas for `lexLe` -/

theorem lexLe_refl (l : List Char) : lexLe l l = true := by
  induction l with
  | nil => rfl
  | cons a as ih => rw [lexLe, if_neg (Nat.lt_irrefl _), if_neg (Nat.lt_irrefl _), ih]

theorem lexLe_trans : ∀ (a b c : List Char),
    lexLe a b = true → lexLe b c = true → lexLe a c = true
  | [], _, _, _, _ => rfl
  | x :: xs, [], _, h1, _ => by rw [lexLe] at h1; cases h1
  | x :: xs, y :: ys, [], _, h2 => by rw [lexLe] at h2; cases h2
  | x :: xs, y :: ys, z :: zs, h1, h2 => by
    rw [lexLe] at h1 h2 ⊢
    by_cases hxy : x.toNat < y.toNat
    · by_cases hyz : y.toNat < z.toNat
      · rw [if_pos (by omega)]
      · by_cases hzy : z.toNat < y.toNat
        · rw [if_neg hyz, if_pos hzy] at h2
          cases h2
        · rw [if_pos (by omega)]
    · by_cases hyx : y.toNat < x.toNat
      · rw [if_neg hxy, if_pos hyx] at h1
        cases h1
      · by_cases hyz : y.toNat < z.toNat
        · rw [if_pos (by omega)]
        · by_cases hzy : z.toNat < y.toNat
          · rw [if_neg hyz, if_pos hzy] at h2
            cases h2
          · rw [if_neg hxy, if_neg hyx] at h1
            rw [if_neg hyz, if_neg hzy] at h2
            rw [if_neg (by omega : ¬ x.toNat < z.toNat),
              if_neg (by omega : ¬ z.toNat < x.toNat)]
            exact lexLe_trans xs ys zs h1 h2

theorem lexLe_total : ∀ (a b : List Char), (lexLe a b || lexLe b a) = true
  | [], _ => rfl
  | _ :: _, [] => rfl
  | x :: xs, y :: ys => by
    rw [lexLe, lexLe]
    by_cases hxy : x.toNat < y.toNat
    · rw [if_pos hxy]
      rfl
    · by_cases hyx : y.toNat < x.toNat
      · rw [if_neg hxy, if_pos hyx, if_pos hyx]
        simp
      · rw [if_neg hxy, if_neg hyx, if_neg hyx, if_neg hxy]
        exact lexLe_total xs ys

theorem pyLe_trans (a b c : String) (h1 : pyLe a b) (h2 : pyLe b c) : pyLe a c :=
  lexLe_trans _ _ _ h1 h2

theorem pyLe_total (a b : String) : (pyLe a b || pyLe b a) = true :=
  lexLe_total _ _

/-- In a `pyLe`-pairwise-sorted list, every element is ≤ the last one. -/
theorem pairwise_pyLe_getLast : ∀ (l : List String) (hne : l ≠ []),
    l.Pairwise (fun a b => pyLe a b = true) →
    ∀ x ∈ l, pyLe x (l.getLast hne) = true
  | [], hne, _, _, hx => absurd rfl hne
  | [a], _, _, x, hx => by
    rw [List.mem_singleton] at hx
    subst hx
    exact lexLe_refl _
  | a :: b :: rest, _, hp, x, hx => by
    have hne2 : b :: rest ≠ [] := by simp
    rw [List.getLast_cons hne2]
    rcases List.pairwise_cons.mp hp with ⟨ha, hrest⟩
    rcases List.mem_cons.mp hx with hx | hx
    · subst hx
      exact ha _ (List.getLast_mem hne2)
    · exact pairwise_pyLe_getLast (b :: rest) hne2 hrest x hx

/-- Core fact shared by several claims: on a non-empty listing the resolved
binary path sits under the `pyLe`-maximal directory name. -/
theorem step_path_of_ne_nil (caPath entries : List String) (hne : entries ≠ []) :
    ∃ m, m ∈ entries ∧ (∀ x ∈ entries, pyLe x m = true) ∧
      get_step_bin_path caPath ⟨true, entries⟩
        = .ok (some (caPath ++ ["step", m, "bin", "step"])) ∧
      get_step_ca_bin_path caPath ⟨true, entries⟩
        = .ok (some (caPath ++ ["step", m, "bin", "step-ca"])) := by
  have hperm : List.Perm (pySorted entries) entries := List.mergeSort_perm entries pyLe
  have hsne : pySorted entries ≠ [] := by
    intro h0
    apply hne
    have hl := hperm.length_eq
    rw [h0] at hl
    exact List.eq_nil_of_length_eq_zero hl.symm
  refine ⟨(pySorted entries).getLast hsne, ?_, ?_, ?_, ?_⟩
  · exact hperm.mem_iff.mp (List.getLast_mem hsne)
  · intro x hx
    exact pairwise_pyLe_getLast (pySorted entries) hsne
      (List.sorted_mergeSort pyLe_trans pyLe_total entries)
      x (hperm.mem_iff.mpr hx)
  · unfold get_step_bin_path
    rw [List.getLast?_eq_getLast _ hsne]
    exact rfl
  · unfold get_step_ca_bin_path
    rw [List.getLast?_eq_getLast _ hsne]
    exact rfl

/-- C2: On every non-empty set of installed version directories the
resolved binary path is the one under the lexicographically maximal
directory name (plain code-point string order), and in particular for
the directories `1.9.0` and `1.10.0` the path under `1.9.0` is returned
(string ordering, not semantic-version ordering). -/
theorem step_bin_path_lexicographic_max :
    (∀ (caPath entries : List String), entries ≠ [] →
      ∃ m, m ∈ entries ∧ (∀ x ∈ entries, pyLe x m = true) ∧
        get_step_bin_path caPath ⟨true, entries⟩
          = .ok (some (caPath ++ ["step", m, "bin", "step"])) ∧
        get_step_ca_bin_path caPath ⟨true, entries⟩
          = .ok (some (caPath ++ ["step", m, "bin", "step-ca"]))) ∧
    (∀ caPath : List String,
      get_step_bin_path caPath ⟨true, ["1.9.0", "1.10.0"]⟩
        = .ok (some (caPath ++ ["step", "1.9.0", "bin", "step"])) ∧
      get_step_ca_bin_path caPath ⟨true, ["1.9.0", "1.10.0"]⟩
        = .ok (some (caPath ++ ["step", "1.9.0", "bin", "step-ca"]))) :=
  ⟨fun caPath entries hne => step_path_of_ne_nil caPath entries hne,
    fun caPath => by
      obtain ⟨m, hm, hmax, h1, h2⟩ :=
        step_path_of_ne_nil caPath ["1.9.0", "1.10.0"] (by decide)
      have hm9 : m = "1.9.0" := by
        rcases List.mem_cons.mp hm with h | h
        · exact h
        · rcases List.mem_cons.mp h with h | h
          · subst h
            exact absurd (hmax "1.9.0" (by simp)) (by decide)
          · simp at h
      subst hm9
      exact ⟨h1, h2⟩⟩

/-- Witness for C2 on the listing from the claim. -/
theorem step_bin_path_lexicographic_max_witness :
    ∃ m, m ∈ ["1.9.0", "1.10.0"] ∧
      (∀ x ∈ ["1.9.0", "1.10.0"], pyLe x m = true) ∧
      get_step_bin_path ["ws"] ⟨true, ["1.9.0", "1.10.0"]⟩
        = .ok (some (["ws"] ++ ["step", m, "bin", "step"])) ∧
      get_step_ca_bin_path ["ws"] ⟨true, ["1.9.0", "1.10.0"]⟩
        = .ok (some (["ws"] ++ ["step", m, "bin", "step-ca"])) :=
  step_bin_path_lexicographic_max.1 ["ws"] ["1.9.0", "1.10.0"] (by decide)

/-! ### Release download (`download_step_bin`)

The function fetches release metadata, and on a 200 status filters the
`assets` array to those whose `name` contains both the name filter and the
architecture filter as substrings, takes `urls[-1]` (raising `IndexError`
when no asset matches), rewrites `https` to `http` in the chosen URL, and
downloads/unpacks it.  On any other status it logs a warning and returns.
`confirm(..., abort=True)` happens before any of this; the model covers the
call after confirmation is granted or suppressed. -/

structure Asset where
  name : List Char
  browser_download_url : List Char
  deriving DecidableEq

/-- Model of the Python substring test `pat in s`. -/
def listIsInfixOf (pat : List Char) : List Char → Bool
  | [] => pat.isEmpty
  | c :: rest => pat.isPrefixOf (c :: rest) || listIsInfixOf pat rest

def assetMatches (grepName architecture : List Char) (a : Asset) : Bool :=
  listIsInfixOf grepName a.name && listIsInfixOf architecture a.name

/-- Model of Python `url.replace('https', 'http')` (left-to-right,
non-overlapping). -/
def replaceHttpsHttp : List Char → List Char
  | 'h' :: 't' :: 't' :: 'p' :: 's' :: rest => 'h' :: 't' :: 't' :: 'p' :: replaceHttpsHttp rest
  | c :: rest => c :: replaceHttpsHttp rest
  | [] => []

inductive DLRes where
  | warned
  | fetched (url : List Char)
  | ierr
  deriving DecidableEq

def download_step_bin (status : Nat) (assets : List Asset)
    (grepName architecture : List Char) : DLRes :=
  if status ≠ 200 then .warned
  else
    match ((assets.filter (assetMatches grepName architecture)).map
        Asset.browser_download_url).getLast? with
    | none => .ierr
    | some u => .fetched (replaceHttpsHttp u)

/-- C3: Whenever at least one asset matches both substring filters, the
asset chosen for download is exactly the last matching one in the order the
endpoint listed them (its URL, after the https-to-http rewrite, is what is
fetched). -/
theorem download_selects_last_match (assets : List Asset)
    (grepName architecture : List Char) (a : Asset)
    (h : (assets.filter (assetMatches grepName architecture)).getLast? = some a) :
    download_step_bin 200 assets grepName architecture
      = .fetched (replaceHttpsHttp a.browser_download_url) := by
  unfold download_step_bin
  rw [if_neg (by omega), List.getLast?_map, h]
  exact rfl

/-- Witness for C3: two matching assets, the later one is chosen. -/
theorem download_selects_last_match_witness :
    ((([⟨"step_linux_amd64_old.tar.gz".toList, "https://u1".toList⟩,
        ⟨"other.tar.gz".toList, "https://u2".toList⟩,
        ⟨"step_linux_amd64_new.tar.gz".toList, "https://u3".toList⟩] :
          List Asset).filter
        (assetMatches "step_linux".toList "amd".toList)).getLast?
      = some ⟨"step_linux_amd64_new.tar.gz".toList, "https://u3".toList⟩) ∧
    download_step_bin 200
      [⟨"step_linux_amd64_old.tar.gz".toList, "https://u1".toList⟩,
        ⟨"other.tar.gz".toList, "https://u2".toList⟩,
        ⟨"step_linux_amd64_new.tar.gz".toList, "https://u3".toList⟩]
      ("step_linux".toList) ("amd".toList)
      = .fetched (replaceHttpsHttp ("https://u3".toList)) :=
  ⟨by rfl, download_selects_last_match _ _ _ _ (by rfl)⟩

/-- C8: For every metadata response whose status is not 200 (in particular
every non-success status), `download_step_bin` logs a warning and returns
normally: no download, no extraction, no exception. -/
theorem download_warns_on_failure_status (status : Nat) (h : status ≠ 200)
    (assets : List Asset) (grepName architecture : List Char) :
    download_step_bin status assets grepName architecture = .warned := by
  unfold download_step_bin
  rw [if_pos h]

/-- Witness for C8 at status 404. -/
theorem download_warns_on_failure_status_witness :
    download_step_bin 404
      [⟨"step_linux_amd64.tar.gz".toList, "https://u1".toList⟩]
      ("step_linux".toList) ("amd".toList) = .warned :=
  download_warns_on_failure_status 404 (by omega) _ _ _

/-! ### Effect traces of the stateful operations

Each operation is embedded as a function from its inputs and an abstract
environment (filesystem state, subprocess outcomes, confirmation answers)
to the list of externally observable events it performs, in order, together
with its result.  `Res.exn` models a raised Python `Exception` /
`click.Abort` / failed `assert`; `Res.perr` a raised builtin error. -/

inductive Event where
  | mkdirp (path : List String)
  | setEnv (var : String) (value : List String)
  | writeFile (path : List String)
  | download (tag : String)
  | rmtree (path : List String)
  | tool (cmd : String)
  | killProcs
  deriving DecidableEq

inductive Res (α : Type) where
  | ok (a : α)
  | exn (msg : String)
  | perr (e : PyErr)
  deriving DecidableEq

/-- ASCII whitespace stripped by Python `bytes.strip()`. -/
def isSpaceByte (b : Nat) : Bool :=
  b == 9 || b == 10 || b == 11 || b == 12 || b == 13 || b == 32

def stripBytes (bs : List Nat) : List Nat :=
  ((bs.dropWhile isSpaceByte).reverse.dropWhile isSpaceByte).reverse

/-- Abstract environment for a `get_token` call. -/
structure GetTokenEnv where
  fs : Fs
  cmdResult : Except Nat (List Nat)
  rootCa : List Nat

/-- Model of `get_token`: resolve the step binary (raising the
not-installed exception when discovery yields `None`), run the token
subcommand (on a `CalledProcessError` log it and return `None`),
then strip, base64-encode, and join token and root certificate with the
delimiter. -/
def get_token (name caUrl : String) (caPath : List String) (env : GetTokenEnv) :
    List Event × Res (Option (List Char)) :=
  match get_step_bin_path caPath env.fs with
  | .error e => ([], .perr e)
  | .ok none => ([], .exn "Step-CA is not installed!\nRun `fx pki install` first")
  | .ok (some _) =>
    match env.cmdResult with
    | .error _ => ([.tool "step ca token"], .ok none)
    | .ok out =>
        ([.tool "step ca token"],
          .ok (some (b64EncodeBytes (stripBytes out) ++
            TOKEN_DELIMITER :: b64EncodeBytes env.rootCa)))

/-! ### Fallible decoding used by `certify`

`certify` decodes both token segments before binary discovery
(`base64.b64decode(token).decode('utf-8')` and `base64.b64decode(root_ca)`),
so undecodable segments raise `binascii.Error` or `UnicodeDecodeError`
before any toolchain invocation. -/

/-- Does the next valid base64 character (alphabet or padding) in the input
exist and equal `=`?  Mirrors `binascii_find_valid`. -/
def findValidIsPad : List Char → Bool
  | [] => false
  | c :: rest =>
    if c = '=' then true
    else if b64Alphabet.contains c then false
    else findValidIsPad rest

/-- Scanning loop of CPython `binascii.a2b_base64` (as in the Python
versions contemporary with this code): characters outside the alphabet are
discarded; a `=` is ignored unless it completes a pad sequence (at least
two data characters in the current quad, and at quad position exactly two
only when the next valid character is also `=`), in which case processing
stops.  Returns the data characters consumed and whether a pad sequence
ended the scan. -/
def b64Scan : List Char → Nat → List Char × Bool
  | [], _ => ([], false)
  | c :: rest, qp =>
    if c = '=' then
      if qp < 2 ∨ (qp = 2 ∧ ¬ findValidIsPad rest) then b64Scan rest qp
      else ([], true)
    else if b64Alphabet.contains c then
      let p := b64Scan rest ((qp + 1) % 4)
      (c :: p.1, p.2)
    else b64Scan rest qp

/-- Model of Python `base64.b64decode`: scan as `a2b_base64` does and raise
`binascii.Error` (incorrect padding) when the input ends with an incomplete
quad and no pad sequence was seen. -/
def b64decodePy (cs : List Char) : Except PyErr (List Nat) :=
  let p := b64Scan cs 0
  if p.2 ∨ p.1.length % 4 = 0 then .ok (sextetsToBytes (p.1.map decChar))
  else .error .binasciiError

/-- Is `b` a UTF-8 continuation byte (0x80-0xBF)? -/
def isCont (b : Nat) : Bool := decide (128 ≤ b ∧ b ≤ 191)

/-- Model of Python `bytes.decode('utf-8')` (strict): standard UTF-8,
rejecting stray continuation bytes, overlong forms, surrogates and
code points beyond U+10FFFF with `UnicodeDecodeError`. -/
def utf8DecodeBytes : List Nat → Except PyErr (List Char)
  | [] => .ok []
  | b1 :: rest =>
    if b1 ≤ 127 then
      match utf8DecodeBytes rest with
      | .ok cs => .ok (Char.ofNat b1 :: cs)
      | .error e => .error e
    else if 194 ≤ b1 ∧ b1 ≤ 223 then
      match rest with
      | b2 :: rest2 =>
        if isCont b2 then
          match utf8DecodeBytes rest2 with
          | .ok cs => .ok (Char.ofNat ((b1 - 192) * 64 + (b2 - 128)) :: cs)
          | .error e => .error e
        else .error .unicodeDecodeError
      | [] => .error .unicodeDecodeError
    else if 224 ≤ b1 ∧ b1 ≤ 239 then
      match rest with
      | b2 :: b3 :: rest3 =>
        if ((if b1 = 224 then decide (160 ≤ b2 ∧ b2 ≤ 191)
            else if b1 = 237 then decide (128 ≤ b2 ∧ b2 ≤ 159)
            else isCont b2) && isCont b3) = true then
          match utf8DecodeBytes rest3 with
          | .ok cs => .ok (Char.ofNat ((b1 - 224) * 4096 + (b2 - 128) * 64 +
              (b3 - 128)) :: cs)
          | .error e => .error e
        else .error .unicodeDecodeError
      | _ => .error .unicodeDecodeError
    else if 240 ≤ b1 ∧ b1 ≤ 244 then
      match rest with
      | b2 :: b3 :: b4 :: rest4 =>
        if ((if b1 = 240 then decide (144 ≤ b2 ∧ b2 ≤ 191)
            else if b1 = 244 then decide (128 ≤ b2 ∧ b2 ≤ 143)
            else isCont b2) && isCont b3 && isCont b4) = true then
          match utf8DecodeBytes rest4 with
          | .ok cs => .ok (Char.ofNat ((b1 - 240) * 262144 + (b2 - 128) * 4096 +
              (b3 - 128) * 64 + (b4 - 128)) :: cs)
          | .error e => .error e
        else .error .unicodeDecodeError
      | _ => .error .unicodeDecodeError
    else .error .unicodeDecodeError

/-- Abstract environment for a `certify` call. -/
structure CertifyEnv where
  fs : Fs
  confirmGranted : Bool
  dlStatus : Nat
  dlAssets : List Asset
  fsAfterDownload : Fs

/-- Model of `certify`: create the certificate directory, split the
bootstrap token on the delimiter into exactly two segments (a wrong
segment count raises `ValueError`), base64-decode the token segment and
UTF-8-decode the resulting bytes, base64-decode the root-certificate
segment (any of these may raise `binascii.Error` or `UnicodeDecodeError`),
resolve the step binary (downloading it on demand when absent, and failing
hard when still absent), write the decoded root certificate, and invoke
the certificate-request subcommand. -/
def certify (name : String) (certPath : List String) (tokenWithCert : List Char)
    (caPath : List String) (env : CertifyEnv) : List Event × Res Unit :=
  let ev0 : List Event := [.mkdirp certPath]
  match splitOnDot tokenWithCert with
  | [t, r] =>
    match b64decodePy t with
    | .error e => (ev0, .perr e)
    | .ok tokenBytes =>
    match utf8DecodeBytes tokenBytes with
    | .error e => (ev0, .perr e)
    | .ok _ =>
    match b64decodePy r with
    | .error e => (ev0, .perr e)
    | .ok _ =>
    match get_step_bin_path caPath env.fs with
    | .error e => (ev0, .perr e)
    | .ok (some _) =>
        (ev0 ++ [.writeFile (certPath ++ ["root_ca.crt"]),
          .tool "step ca certificate"], .ok ())
    | .ok none =>
      if env.confirmGranted then
        match download_step_bin env.dlStatus env.dlAssets
            ("step_linux".toList) ("amd".toList) with
        | .ierr => (ev0 ++ [.download "cli"], .perr .indexError)
        | _ =>
          match get_step_bin_path caPath env.fsAfterDownload with
          | .error e => (ev0 ++ [.download "cli"], .perr e)
          | .ok none => (ev0 ++ [.download "cli"],
              .exn "Step-CA is not installed!\nRun `fx pki install` first")
          | .ok (some _) =>
              (ev0 ++ [.download "cli",
                .writeFile (certPath ++ ["root_ca.crt"]),
                .tool "step ca certificate"], .ok ())
      else (ev0, .exn "Aborted")
  | _ => (ev0, .perr .valueError)

/-- C6: For every bootstrap token that does not split on the delimiter into
exactly two segments (e.g. one with no delimiter at all), `certify` raises
the token-malformed error (`ValueError` from unpacking the split) right
after creating the output directory: no toolchain invocation occurs and no
file is written. -/
theorem certify_malformed_token (name : String) (certPath : List String)
    (tokenWithCert : List Char) (caPath : List String) (env : CertifyEnv)
    (h : (splitOnDot tokenWithCert).length ≠ 2) :
    certify name certPath tokenWithCert caPath env
      = ([.mkdirp certPath], .perr .valueError) ∧
    (∀ c, Event.tool c ∉ (certify name certPath tokenWithCert caPath env).1) ∧
    (∀ p, Event.writeFile p ∉ (certify name certPath tokenWithCert caPath env).1) := by
  have hmain : certify name certPath tokenWithCert caPath env
      = ([.mkdirp certPath], .perr .valueError) := by
    rcases hs : splitOnDot tokenWithCert with _ | ⟨t, _ | ⟨r, _ | ⟨x, xs⟩⟩⟩
    · simp [certify, hs]
    · simp [certify, hs]
    · rw [hs] at h
      simp at h
    · simp [certify, hs]
  refine ⟨hmain, ?_, ?_⟩ <;> rw [hmain] <;> simp

/-- Witness for C6 on a token with no delimiter. -/
theorem certify_malformed_token_witness :
    certify "collab" ["out"] ("nodothere".toList) ["ws"]
        ⟨⟨true, ["1.0.0"]⟩, true, 200, [], ⟨true, ["1.0.0"]⟩⟩
      = ([.mkdirp ["out"]], .perr .valueError) ∧
    (∀ c, Event.tool c ∉ (certify "collab" ["out"] ("nodothere".toList) ["ws"]
        ⟨⟨true, ["1.0.0"]⟩, true, 200, [], ⟨true, ["1.0.0"]⟩⟩).1) ∧
    (∀ p, Event.writeFile p ∉ (certify "collab" ["out"] ("nodothere".toList) ["ws"]
        ⟨⟨true, ["1.0.0"]⟩, true, 200, [], ⟨true, ["1.0.0"]⟩⟩).1) :=
  certify_malformed_token "collab" ["out"] ("nodothere".toList) ["ws"]
    ⟨⟨true, ["1.0.0"]⟩, true, 200, [], ⟨true, ["1.0.0"]⟩⟩ (by decide)

/-- C7: `get_token` error behavior.  When the step binary directory is
absent from the workspace the call raises the not-installed exception
before any toolchain invocation; when the token subcommand exits non-zero
the call logs the error and returns `None` — it neither raises nor returns
a partial token. -/
theorem get_token_error_behavior :
    (∀ (name caUrl : String) (caPath entries : List String)
      (cmd : Except Nat (List Nat)) (root : List Nat),
      get_token name caUrl caPath ⟨⟨false, entries⟩, cmd, root⟩
        = ([], .exn "Step-CA is not installed!\nRun `fx pki install` first")) ∧
    (∀ (name caUrl : String) (caPath entries : List String) (rc : Nat)
      (root : List Nat), entries ≠ [] →
      get_token name caUrl caPath ⟨⟨true, entries⟩, .error rc, root⟩
        = ([.tool "step ca token"], .ok none)) := by
  constructor
  · intro name caUrl caPath entries cmd root
    simp [get_token, get_step_bin_path]
  · intro name caUrl caPath entries rc root hne
    obtain ⟨m, _, _, h1, _⟩ := step_path_of_ne_nil caPath entries hne
    simp [get_token, h1]

/-- Witness for C7 at concrete workspaces. -/
theorem get_token_error_behavior_witness :
    get_token "collab" "https://ca:9000" ["ws"] ⟨⟨false, []⟩, .ok [97], [98]⟩
      = ([], .exn "Step-CA is not installed!\nRun `fx pki install` first") ∧
    get_token "collab" "https://ca:9000" ["ws"] ⟨⟨true, ["1.0.0"]⟩, .error 1, [98]⟩
      = ([.tool "step ca token"], .ok none) :=
  ⟨get_token_error_behavior.1 "collab" "https://ca:9000" ["ws"] [] (.ok [97]) [98],
    get_token_error_behavior.2 "collab" "https://ca:9000" ["ws"] ["1.0.0"] 1 [98]
      (by decide)⟩

end CA
